import Mathlib

/-!
# Verification of the simplantic semantic-search core

The repository is a notebook (`src/basic_examples.ipynb`) that builds a
semantic sentence-search index: sentences are embedded to vectors
(`svc = np.array([s.vector for s in bks])`, `stx = np.array([s.text for s in bks])`),
the vectors are fitted into a nearest-neighbour index (`nnb.fit(svc)`),
and queries are answered by `nnb.kneighbors([nlp(...).vector])`, with
result rows expanded to a context window `stx[i : (i + 3)]`.

The heavy lifting (spaCy embedding, sklearn `NearestNeighbors`,
scipy `cosine`) is external library code, which the spec folds into an
Embedder / Indexer / Query-Pipeline core with explicit error kinds.
We embed the notebook's own logic directly, and model the external
pieces from the spec where noted (the spec names exact brute-force
k-nearest-neighbour as the baseline correctness oracle).

Floating-point vectors are modelled with exact rationals, so the
"within floating-point tolerance" approximations become exact equalities.
-/

/-- A vector of an embedding: a fixed-length array of numbers
(floats in the source, modelled exactly as rationals). -/
abbrev Vec := List ℚ

/-- A TextUnit of the corpus: a sentence with its text, its position in
the corpus sequence, and its embedding vector (the spaCy `Span` objects
`bks[i]`, carrying `.text` and `.vector`). -/
structure TextUnit where
  text : String
  position : ℕ
  vector : Vec
deriving DecidableEq, Repr

/-- A Corpus: the ordered sequence of TextUnits (`bks` in the notebook). -/
abbrev Corpus := List TextUnit

/-- The matrix of sentence vectors:
`svc = np.array([s.vector for s in bks])`. -/
def svc (c : Corpus) : List Vec := c.map TextUnit.vector

/-- The parallel array of sentence texts:
`stx = np.array([s.text for s in bks])`. -/
def stx (c : Corpus) : List String := c.map TextUnit.text

/-- Error kind raised when building an index fails. -/
inductive IndexBuildError where
  | emptyCorpus
  | inconsistentDims
deriving DecidableEq, Repr

/-- Error kind raised when querying an index fails. -/
inductive QueryError where
  | dimMismatch
  | invalidK
deriving DecidableEq, Repr

/-- Error kind raised when embedding fails. -/
inductive EmbeddingError where
  | emptyText
  | modelUnloaded
deriving DecidableEq, Repr

/-- An Index: a read-only snapshot of the corpus vector matrix
(shape `[N, D]`) plus the parallel text array (the state held by
`nnb` after `nnb.fit(svc)`, together with `stx`). -/
structure Index where
  dim : ℕ
  vectors : List Vec
  texts : List String
deriving DecidableEq, Repr

/-- Whether every vector of the corpus has the same dimensionality. -/
def dimsConsistent (c : Corpus) : Bool :=
  match c with
  | [] => true
  | u :: rest => rest.all fun x => x.vector.length == u.vector.length

/-- Modelled from the spec: `build(corpus) -> Index` consumes the full
vector matrix and fails with `IndexBuildError` if the corpus is empty or
the vectors have inconsistent dimensionality.  The stored matrix and text
array are the notebook's `svc` and `stx`; the error wrapper is absent from
the notebook (sklearn's `fit` is external) and follows spec section 4.2. -/
def build (c : Corpus) : Except IndexBuildError Index :=
  match c with
  | [] => .error .emptyCorpus
  | u :: rest =>
    if dimsConsistent (u :: rest) then
      .ok ⟨u.vector.length, svc (u :: rest), stx (u :: rest)⟩
    else
      .error .inconsistentDims

/-- Squared Euclidean distance between two vectors (sklearn
`NearestNeighbors`' default metric is Euclidean; squaring preserves the
ordering and the zero locus, and keeps the arithmetic exact). -/
def sqdist (u v : Vec) : ℚ :=
  (List.zipWith (fun a b => (a - b) * (a - b)) u v).sum

theorem sqdist_cons (a b : ℚ) (t s : Vec) :
    sqdist (a :: t) (b :: s) = (a - b) * (a - b) + sqdist t s := by
  simp [sqdist, List.sum_cons]

theorem sqdist_self (v : Vec) : sqdist v v = 0 := by
  induction v with
  | nil => rfl
  | cons a t ih => rw [sqdist_cons, ih]; ring

theorem sqdist_nonneg (u v : Vec) : 0 ≤ sqdist u v := by
  induction u generalizing v with
  | nil => simp [sqdist]
  | cons a t ih =>
    cases v with
    | nil => simp [sqdist]
    | cons b s =>
      rw [sqdist_cons]
      exact add_nonneg (mul_self_nonneg _) (ih s)

/-- The order on candidate result rows `(original position, distance)`:
ascending distance, ties broken by ascending original corpus position
(spec section 4.2's tie-break policy). -/
def resLE (a b : ℕ × ℚ) : Prop :=
  a.2 < b.2 ∨ (a.2 = b.2 ∧ a.1 ≤ b.1)

instance : DecidableRel resLE := fun _ _ =>
  inferInstanceAs (Decidable (_ ∨ _))

instance : IsTotal (ℕ × ℚ) resLE where
  total a b := by
    rcases lt_trichotomy a.2 b.2 with h | h | h
    · exact Or.inl (Or.inl h)
    · rcases Nat.le_total a.1 b.1 with h1 | h1
      · exact Or.inl (Or.inr ⟨h, h1⟩)
      · exact Or.inr (Or.inr ⟨h.symm, h1⟩)
    · exact Or.inr (Or.inl h)

instance : IsTrans (ℕ × ℚ) resLE where
  trans a b c hab hbc := by
    rcases hab with h1 | ⟨h1, h1'⟩ <;> rcases hbc with h2 | ⟨h2, h2'⟩
    · exact Or.inl (h1.trans h2)
    · exact Or.inl (h2 ▸ h1)
    · exact Or.inl (h1 ▸ h2)
    · exact Or.inr ⟨h1.trans h2, h1'.trans h2'⟩

/-- All candidate result rows of a query: for each corpus position `i`,
the pair of `i` and the distance from row `i` of the matrix to the query
vector (the linear scan of the brute-force oracle). -/
def candidates (idx : Index) (v : Vec) : List (ℕ × ℚ) :=
  (List.range idx.vectors.length).map fun i => (i, sqdist (idx.vectors.getD i []) v)

/-- Modelled from the spec: `query(index, vector, k)` of section 4.2,
exact brute-force k-nearest-neighbour (linear scan + sort + take k),
the spec's baseline correctness oracle for the external sklearn
`kneighbors` call.  Fails with `QueryError` on a dimensionality mismatch
or `k = 0`; `k` larger than the corpus size is clamped to the corpus
size (the policy choice the spec leaves open, fixed here). -/
def query (idx : Index) (v : Vec) (k : ℕ) :
    Except QueryError (List (ℕ × ℚ)) :=
  if v.length ≠ idx.dim then .error .dimMismatch
  else if k = 0 then .error .invalidK
  else .ok ((List.insertionSort resLE (candidates idx v)).take k)

/-- Modelled from the spec: the Embedder's loaded-model state.  The
notebook's model is the external spaCy object `nlp`; we keep only what
the spec's contract observes: whether the model is loaded, and the
text-to-vector map it realises. -/
structure EmbModel where
  loaded : Bool
  vecOf : String → Vec

/-- Modelled from the spec: `embed(text) -> vector` of section 4.1
(the notebook's `nlp(text).vector`, external spaCy code).  Fails with
`EmbeddingError` if the model is unloaded or the text is empty; otherwise
it is a pure lookup of the model's text-to-vector map. -/
def embed (m : EmbModel) (t : String) : Except EmbeddingError Vec :=
  if m.loaded = false then .error .modelUnloaded
  else if t = "" then .error .emptyText
  else .ok (m.vecOf t)

/-- The context window of a result row: `stx[i : (i + n)]` in the
notebook (with `n = 3` there), numpy slicing that clamps at the array
boundaries. -/
def contextWindow (texts : List String) (i n : ℕ) : List String :=
  (texts.drop i).take n

/-- A word-vector model as `word_cosine_similarity` observes it: the map
`w => model.vocab[w].vector` (the external spaCy vocabulary). -/
structure WordModel where
  vocabVec : String → List ℝ

/-- The dot product of two real vectors. -/
noncomputable def dotR (u v : List ℝ) : ℝ :=
  (List.zipWith (fun a b => a * b) u v).sum

/-- scipy's `cosine(u, v) = 1 - u.v / (|u| |v|)`, the cosine distance. -/
noncomputable def scipyCosine (u v : List ℝ) : ℝ :=
  1 - dotR u v / (Real.sqrt (dotR u u) * Real.sqrt (dotR v v))

/-- `word_cosine_similarity(w1, w2, model)` from the notebook:
`1 - cosine(model.vocab[w1].vector, model.vocab[w2].vector)`. -/
noncomputable def word_cosine_similarity (w1 w2 : String) (model : WordModel) : ℝ :=
  1 - scipyCosine (model.vocabVec w1) (model.vocabVec w2)

theorem dotR_comm (u v : List ℝ) : dotR u v = dotR v u := by
  unfold dotR
  rw [List.zipWith_comm_of_comm]
  intro x y
  ring

/-- C1: for every corpus with at least one text unit, a successful build
stores, for every position `i`, row `i` of the vector matrix equal to the
`i`-th sentence's embedding vector, and entry `i` of the parallel text
array equal to the `i`-th sentence's text. -/
theorem build_rows_match (cs : Corpus) (idx : Index) (h : build cs = .ok idx) :
    1 ≤ cs.length ∧ ∀ i : ℕ,
      idx.vectors[i]? = (cs[i]?).map TextUnit.vector ∧
      idx.texts[i]? = (cs[i]?).map TextUnit.text := by
  cases cs with
  | nil => simp [build] at h
  | cons u rest =>
    rw [build] at h
    by_cases hd : dimsConsistent (u :: rest)
    · rw [if_pos hd] at h
      injection h with h
      subst h
      refine ⟨by simp, fun i => ⟨?_, ?_⟩⟩
      · show (List.map TextUnit.vector (u :: rest))[i]? = _
        rw [List.getElem?_map]
      · show (List.map TextUnit.text (u :: rest))[i]? = _
        rw [List.getElem?_map]
    · rw [if_neg hd] at h
      exact absurd h (by simp)

theorem build_rows_match_witness :
    build [⟨"a", 0, [1, 2]⟩, ⟨"b", 1, [3, 4]⟩] =
      .ok ⟨2, [[1, 2], [3, 4]], ["a", "b"]⟩ ∧
    (1 ≤ ([⟨"a", 0, [1, 2]⟩, ⟨"b", 1, [3, 4]⟩] : Corpus).length ∧ ∀ i : ℕ,
      (Index.mk 2 [[1, 2], [3, 4]] ["a", "b"]).vectors[i]? =
        (([⟨"a", 0, [1, 2]⟩, ⟨"b", 1, [3, 4]⟩] : Corpus)[i]?).map TextUnit.vector ∧
      (Index.mk 2 [[1, 2], [3, 4]] ["a", "b"]).texts[i]? =
        (([⟨"a", 0, [1, 2]⟩, ⟨"b", 1, [3, 4]⟩] : Corpus)[i]?).map TextUnit.text) :=
  ⟨rfl, build_rows_match _ _ rfl⟩

/-- C4: building from the empty corpus fails with
`IndexBuildError.emptyCorpus`, and building from a corpus whose vectors
have inconsistent dimensionality fails with
`IndexBuildError.inconsistentDims`. -/
theorem build_error_conditions (cs : Corpus) :
    (cs = [] → build cs = .error .emptyCorpus) ∧
    (dimsConsistent cs = false → build cs = .error .inconsistentDims) := by
  constructor
  · rintro rfl
    rfl
  · intro hc
    cases cs with
    | nil => simp [dimsConsistent] at hc
    | cons u rest =>
      rw [build, if_neg]
      rw [hc]
      simp

theorem build_error_conditions_witness :
    (([] : Corpus) = [] ∧ build [] = .error .emptyCorpus) ∧
    (dimsConsistent [⟨"a", 0, [1]⟩, ⟨"b", 1, [1, 2]⟩] = false ∧
      build [⟨"a", 0, [1]⟩, ⟨"b", 1, [1, 2]⟩] = .error .inconsistentDims) :=
  ⟨⟨rfl, (build_error_conditions []).1 rfl⟩,
   ⟨rfl, (build_error_conditions _).2 rfl⟩⟩

/-- C5: a query whose vector dimensionality differs from the index's
dimensionality fails with `QueryError.dimMismatch`; conversely every
successful query had a vector of exactly the index's dimensionality, so
no silent truncation or padding can occur. -/
theorem query_dim_mismatch (idx : Index) (v : Vec) (k : ℕ) :
    (v.length ≠ idx.dim → query idx v k = .error .dimMismatch) ∧
    (∀ res, query idx v k = .ok res → v.length = idx.dim) := by
  constructor
  · intro h
    rw [query, if_pos h]
  · intro res h
    by_contra hne
    rw [query, if_pos hne] at h
    exact absurd h (by simp)

theorem query_dim_mismatch_witness :
    ([1].length ≠ (Index.mk 2 [[1, 2]] ["a"]).dim) ∧
    query ⟨2, [[1, 2]], ["a"]⟩ [1] 1 = .error .dimMismatch :=
  ⟨by decide, (query_dim_mismatch ⟨2, [[1, 2]], ["a"]⟩ [1] 1).1 (by decide)⟩

/-- C7: context expansion clamps at corpus boundaries: the window at
position `i` with size `n` holds, in order, exactly the texts at the
indices in `[i, i + n)` that exist in the corpus — position `j` of the
window is the text at corpus position `i + j` when `j < n` and the
position exists, and nothing otherwise — and its length is
`min n (length - i)`.  The operation is total, so no error is raised. -/
theorem contextWindow_clamps (texts : List String) (i n : ℕ) :
    (∀ j : ℕ, (contextWindow texts i n)[j]? =
      if j < n then texts[i + j]? else none) ∧
    (contextWindow texts i n).length = min n (texts.length - i) := by
  constructor
  · intro j
    rw [contextWindow, List.getElem?_take]
    by_cases hj : j < n
    · rw [if_pos hj, if_pos hj, List.getElem?_drop]
    · rw [if_neg hj, if_neg hj]
  · rw [contextWindow, List.length_take, List.length_drop]

/-- C8: embedding is deterministic — for a fixed model state, any two
invocations of `embed` on the same input text return the same result;
the output is a pure function of the model state and the text. -/
theorem embed_deterministic (m : EmbModel) (t1 t2 : String) (h : t1 = t2) :
    embed m t1 = embed m t2 := by
  rw [h]

theorem embed_deterministic_witness :
    ("dog" = "dog") ∧
    embed ⟨true, fun _ => [1]⟩ "dog" = embed ⟨true, fun _ => [1]⟩ "dog" :=
  ⟨rfl, embed_deterministic ⟨true, fun _ => [1]⟩ "dog" "dog" rfl⟩

/-- C9: embedding fails with `EmbeddingError.modelUnloaded` when the
model is not loaded and with `EmbeddingError.emptyText` when the text is
empty; every failure of `embed` is one of these `EmbeddingError` kinds,
and success implies a loaded model and non-empty text. -/
theorem embed_error_conditions (m : EmbModel) (t : String) :
    (m.loaded = false → embed m t = .error .modelUnloaded) ∧
    (m.loaded = true → t = "" → embed m t = .error .emptyText) ∧
    (∀ v, embed m t = .ok v → m.loaded = true ∧ t ≠ "") := by
  refine ⟨?_, ?_, ?_⟩
  · intro h
    rw [embed, if_pos h]
  · intro hm ht
    rw [embed, if_neg (by simp [hm]), if_pos ht]
  · intro v h
    rw [embed] at h
    by_cases hm : m.loaded = false
    · rw [if_pos hm] at h
      exact absurd h (by simp)
    · rw [if_neg hm] at h
      by_cases ht : t = ""
      · rw [if_pos ht] at h
        exact absurd h (by simp)
      · exact ⟨by simpa using hm, ht⟩

theorem embed_error_conditions_witness :
    ((EmbModel.mk false (fun _ => [])).loaded = false ∧
      embed ⟨false, fun _ => []⟩ "dog" = .error .modelUnloaded) ∧
    ((EmbModel.mk true (fun _ => [])).loaded = true ∧ ("" : String) = "" ∧
      embed ⟨true, fun _ => []⟩ "" = .error .emptyText) :=
  ⟨⟨rfl, (embed_error_conditions ⟨false, fun _ => []⟩ "dog").1 rfl⟩,
   ⟨rfl, rfl, (embed_error_conditions ⟨true, fun _ => []⟩ "").2.1 rfl rfl⟩⟩

/-- C10: `word_cosine_similarity` is symmetric in its two word arguments
for every model: the dot product and the norm product both commute. -/
theorem word_cosine_similarity_symm (model : WordModel) (w1 w2 : String) :
    word_cosine_similarity w1 w2 model = word_cosine_similarity w2 w1 model := by
  unfold word_cosine_similarity scipyCosine
  rw [dotR_comm (model.vocabVec w1) (model.vocabVec w2),
    mul_comm (Real.sqrt (dotR (model.vocabVec w1) (model.vocabVec w1)))]

theorem query_ok_elim (idx : Index) (v : Vec) (k : ℕ) (res : List (ℕ × ℚ))
    (h : query idx v k = .ok res) :
    res = (List.insertionSort resLE (candidates idx v)).take k ∧
      v.length = idx.dim ∧ k ≠ 0 := by
  rw [query] at h
  by_cases h1 : v.length ≠ idx.dim
  · rw [if_pos h1] at h
    exact absurd h (by simp)
  · rw [if_neg h1] at h
    by_cases h2 : k = 0
    · rw [if_pos h2] at h
      exact absurd h (by simp)
    · rw [if_neg h2] at h
      injection h with h
      exact ⟨h.symm, not_not.1 h1, h2⟩

theorem candidates_self_mem (idx : Index) (v : Vec) (i : ℕ)
    (hi : i < idx.vectors.length) :
    (i, sqdist (idx.vectors.getD i []) v) ∈ candidates idx v :=
  List.mem_map_of_mem _ (List.mem_range.2 hi)

theorem candidates_snd_nonneg (idx : Index) (v : Vec) :
    ∀ p ∈ candidates idx v, 0 ≤ p.2 := by
  intro p hp
  rcases List.mem_map.1 hp with ⟨i, _, rfl⟩
  exact sqdist_nonneg _ _

/-- C2: for a query vector of the index's dimensionality and any
`k ≥ 1`, the query succeeds and returns at most `k` results, pairwise
ordered by non-decreasing distance (most similar first). -/
theorem query_le_k_sorted (idx : Index) (v : Vec) (k : ℕ)
    (hdim : v.length = idx.dim) (hk : 1 ≤ k) :
    ∃ res, query idx v k = .ok res ∧ res.length ≤ k ∧
      res.Pairwise fun a b => a.2 ≤ b.2 := by
  refine ⟨(List.insertionSort resLE (candidates idx v)).take k, ?_, ?_, ?_⟩
  · rw [query, if_neg (by simp [hdim]), if_neg (by omega)]
  · rw [List.length_take]
    exact min_le_left _ _
  · have hs := List.sorted_insertionSort resLE (candidates idx v)
    have hpw := List.Pairwise.sublist
      (List.take_sublist k (List.insertionSort resLE (candidates idx v))) hs
    refine hpw.imp fun hab => ?_
    rcases hab with h | ⟨h, _⟩
    · exact le_of_lt h
    · exact le_of_eq h

theorem query_le_k_sorted_witness :
    ([3, 4] : Vec).length = (Index.mk 2 [[0, 0], [3, 4]] ["a", "b"]).dim ∧
    1 ≤ 1 ∧
    (∃ res, query ⟨2, [[0, 0], [3, 4]], ["a", "b"]⟩ [3, 4] 1 = .ok res ∧
      res.length ≤ 1 ∧ res.Pairwise fun a b => a.2 ≤ b.2) :=
  ⟨rfl, le_refl 1,
    query_le_k_sorted ⟨2, [[0, 0], [3, 4]], ["a", "b"]⟩ [3, 4] 1 rfl (le_refl 1)⟩

theorem dimsConsistent_mem (u0 : TextUnit) (rest : List TextUnit)
    (hd : dimsConsistent (u0 :: rest) = true) (u : TextUnit)
    (hm : u ∈ u0 :: rest) : u.vector.length = u0.vector.length := by
  rcases List.mem_cons.1 hm with rfl | hm
  · rfl
  · simpa using List.all_eq_true.1 hd u hm

/-- C3: querying a built index with one of its own text units' embedding
vector (any `k ≥ 1`) succeeds, and the nearest (first) result has
distance exactly `0 = sqdist(u.vector, u.vector)` — the unit itself is
the nearest result or tied for nearest, at distance zero (exact
rationals stand in for the floating-point tolerance). -/
theorem query_self_nearest (cs : Corpus) (idx : Index) (i : ℕ) (u : TextUnit)
    (k : ℕ) (hb : build cs = .ok idx) (hu : cs[i]? = some u) (hk : 1 ≤ k) :
    ∃ res p, query idx u.vector k = .ok res ∧ res.head? = some p ∧
      p.2 = sqdist u.vector u.vector ∧ p.2 = 0 := by
  cases cs with
  | nil => simp [build] at hb
  | cons u0 rest =>
    rw [build] at hb
    by_cases hd : dimsConsistent (u0 :: rest)
    case neg =>
      rw [if_neg hd] at hb
      exact absurd hb (by simp)
    rw [if_pos hd] at hb
    injection hb with hb
    subst hb
    rcases List.getElem?_eq_some.1 hu with ⟨hlt, hget⟩
    have hmem : u ∈ u0 :: rest := hget ▸ List.getElem_mem hlt
    have hdim : u.vector.length = u0.vector.length := dimsConsistent_mem u0 rest hd u hmem
    have hsvclen : (svc (u0 :: rest)).length = (u0 :: rest).length := by
      simp [svc]
    have hvec : (svc (u0 :: rest))[i]? = some u.vector := by
      rw [svc, List.getElem?_map, hu]
      rfl
    have hgetD : (svc (u0 :: rest)).getD i [] = u.vector := by
      rw [List.getD_eq_getElem?_getD, hvec]
      rfl
    set idx' : Index := ⟨u0.vector.length, svc (u0 :: rest), stx (u0 :: rest)⟩ with hidx
    have hcand : (i, (0 : ℚ)) ∈ candidates idx' u.vector := by
      have := candidates_self_mem idx' u.vector i (by simpa [hidx, hsvclen] using hlt)
      rwa [show idx'.vectors = svc (u0 :: rest) from rfl, hgetD, sqdist_self] at this
    have hq : query idx' u.vector k =
        .ok ((List.insertionSort resLE (candidates idx' u.vector)).take k) := by
      rw [query, if_neg (by simp [hidx, hdim]), if_neg (by omega)]
    have hmem_sorted : (i, (0 : ℚ)) ∈ List.insertionSort resLE (candidates idx' u.vector) :=
      (List.mem_insertionSort resLE).2 hcand
    cases hsort : List.insertionSort resLE (candidates idx' u.vector) with
    | nil =>
      rw [hsort] at hmem_sorted
      exact absurd hmem_sorted (by simp)
    | cons p t =>
      have hs : List.Sorted resLE (p :: t) :=
        hsort ▸ List.sorted_insertionSort resLE (candidates idx' u.vector)
      have hp_mem : p ∈ candidates idx' u.vector := by
        have : p ∈ List.insertionSort resLE (candidates idx' u.vector) := by
          rw [hsort]
          exact List.mem_cons_self p t
        exact (List.mem_insertionSort resLE).1 this
      have hp_nonneg : 0 ≤ p.2 := candidates_snd_nonneg idx' u.vector p hp_mem
      have hp_le : p.2 ≤ 0 := by
        rw [hsort] at hmem_sorted
        rcases List.mem_cons.1 hmem_sorted with hpe | hmt
        · rw [← hpe]
        · have := List.rel_of_sorted_cons hs _ hmt
          rcases this with h | ⟨h, _⟩
          · exact le_of_lt h
          · exact le_of_eq h
      obtain ⟨k', rfl⟩ : ∃ k', k = k' + 1 := ⟨k - 1, by omega⟩
      refine ⟨(p :: t).take (k' + 1), p, by rw [hq, hsort], ?_, ?_, le_antisymm hp_le hp_nonneg⟩
      · rw [List.take_succ_cons]
        rfl
      · rw [sqdist_self]
        exact le_antisymm hp_le hp_nonneg

theorem query_self_nearest_witness :
    build [⟨"a", 0, [0, 0]⟩, ⟨"b", 1, [3, 4]⟩] =
      .ok ⟨2, [[0, 0], [3, 4]], ["a", "b"]⟩ ∧
    ([⟨"a", 0, [0, 0]⟩, ⟨"b", 1, [3, 4]⟩] : Corpus)[1]? =
      some ⟨"b", 1, [3, 4]⟩ ∧
    1 ≤ 1 ∧
    (∃ res p, query ⟨2, [[0, 0], [3, 4]], ["a", "b"]⟩
        (TextUnit.mk "b" 1 [3, 4]).vector 1 = .ok res ∧
      res.head? = some p ∧
      p.2 = sqdist (TextUnit.mk "b" 1 [3, 4]).vector (TextUnit.mk "b" 1 [3, 4]).vector ∧
      p.2 = 0) :=
  ⟨rfl, rfl, le_refl 1,
    query_self_nearest [⟨"a", 0, [0, 0]⟩, ⟨"b", 1, [3, 4]⟩]
      ⟨2, [[0, 0], [3, 4]], ["a", "b"]⟩ 1 ⟨"b", 1, [3, 4]⟩ 1 rfl rfl (le_refl 1)⟩

theorem candidates_fst_nodup (idx : Index) (v : Vec) :
    ((candidates idx v).map Prod.fst).Nodup := by
  have h : (candidates idx v).map Prod.fst = List.range idx.vectors.length := by
    rw [candidates, List.map_map]
    have hc : (Prod.fst ∘ fun i => (i, sqdist (idx.vectors.getD i []) v)) =
        fun i : ℕ => i := rfl
    rw [hc]
    exact List.map_id _
  rw [h]
  exact List.nodup_range _

/-- C6: whenever a query result holds two rows at exactly equal
distance, the row with the lower original corpus position comes first:
for any two result positions `a < b` with equal distances, the original
position stored at `a` is strictly below the one stored at `b`.
`query` is a pure function, so repeated runs agree identically. -/
theorem query_tiebreak (idx : Index) (v : Vec) (k : ℕ) (res : List (ℕ × ℚ))
    (h : query idx v k = .ok res) (a b : Fin res.length) (hab : a < b)
    (heq : (res.get a).2 = (res.get b).2) :
    (res.get a).1 < (res.get b).1 := by
  obtain ⟨hres, -, -⟩ := query_ok_elim idx v k res h
  have hsub : List.Sublist res (List.insertionSort resLE (candidates idx v)) := by
    rw [hres]
    exact List.take_sublist _ _
  have hpw : res.Pairwise resLE :=
    List.Pairwise.sublist hsub (List.sorted_insertionSort resLE (candidates idx v))
  have hle : (res.get a).1 ≤ (res.get b).1 := by
    rcases List.pairwise_iff_get.1 hpw a b hab with hlt | ⟨-, hle⟩
    · exact absurd heq (ne_of_lt hlt)
    · exact hle
  have hnd : (res.map Prod.fst).Nodup := by
    have hperm : List.Perm ((List.insertionSort resLE (candidates idx v)).map Prod.fst)
        ((candidates idx v).map Prod.fst) :=
      (List.perm_insertionSort resLE (candidates idx v)).map Prod.fst
    have hnds : ((List.insertionSort resLE (candidates idx v)).map Prod.fst).Nodup :=
      hperm.nodup_iff.2 (candidates_fst_nodup idx v)
    exact List.Nodup.sublist (hsub.map Prod.fst) hnds
  have hne : (res.get a).1 ≠ (res.get b).1 := by
    have hp : res.Pairwise fun p q => p.1 ≠ q.1 := List.pairwise_map.1 hnd
    exact List.pairwise_iff_get.1 hp a b hab
  exact lt_of_le_of_ne hle hne

theorem query_tiebreak_witness :
    (query ⟨1, [[0], [2]], ["a", "b"]⟩ [1] 2 = .ok [(0, 1), (1, 1)] ∧
      (([(0, 1), (1, 1)] : List (ℕ × ℚ)).get ⟨0, by decide⟩).2 =
        (([(0, 1), (1, 1)] : List (ℕ × ℚ)).get ⟨1, by decide⟩).2) ∧
    (([(0, 1), (1, 1)] : List (ℕ × ℚ)).get ⟨0, by decide⟩).1 <
      (([(0, 1), (1, 1)] : List (ℕ × ℚ)).get ⟨1, by decide⟩).1 :=
  ⟨⟨by norm_num [query, candidates, sqdist, List.insertionSort, List.orderedInsert,
      resLE, List.range_succ], rfl⟩,
    query_tiebreak ⟨1, [[0], [2]], ["a", "b"]⟩ [1] 2 [(0, 1), (1, 1)]
      (by norm_num [query, candidates, sqdist, List.insertionSort, List.orderedInsert,
        resLE, List.range_succ])
      ⟨0, by decide⟩ ⟨1, by decide⟩ (by decide) rfl⟩
